import Mathlib

/-!
Verification of the InfluxDB line-protocol codec of tremor-runtime
(`src/codec/influx.rs`).

The embedding translates the Rust source shallowly:

* Rust `String` / `&str` values become `List Char` (the code walks `Chars`
  iterators character by character, which is exactly structural recursion on
  a `List Char`).
* `halfbrown::HashMap` becomes an association list built with an insert that
  replaces an existing binding; the maps are compared up to ordering by
  `mapEquivB` (lookup agreement in both directions), matching the way the
  repository compares parsed and reference data.
* `simd_json::OwnedValue` becomes the inductive `OwnedValue`; the non-scalar
  variants (`Null`, `Array`, `Object`) carry no payload because
  `try_to_bytes` only matches on the variant (its wildcard arm) and the
  parser never constructs them.
* Rust `u64` / `i64` / `f64` string conversions are std-library code outside
  the repository; they are modelled by `rustParseU64`, `rustParseI64`,
  `rustParseF64`, `natToChars`, `intToChars`, `f64ToChars` as documented at
  each definition.  In particular the `f64` payload is modelled as an exact
  rational (plus infinities and a NaN), which is exact on every input the
  claims evaluate.
* the two unbounded `loop`s (`parse_tags`, `parse_fields`) are embedded with
  explicit fuel, initialised to more than the length of the remaining input;
  running out of fuel yields the artificial error `InfluxError.outOfFuel`,
  which the proofs below never rely on.
* errors (`ErrorKind::InvalidInfluxData(msg)`) become the constructors of
  `InfluxError`, one per construction site in the source; the original
  message is recorded in a comment at each constructor.
-/

deriving instance DecidableEq for Except

namespace Influx

/-! ## Decimal digits and the Rust integer conversions -/

/-- The ASCII digit character for `n % 10` style values (`48` is the code of
the zero digit). -/
def digitChar (n : Nat) : Char := Char.ofNat (48 + n)

/-- Fuel-driven accumulator loop behind `natToChars`; emits most significant
digit first.  Fuel `n + 1` always suffices. -/
def natToCharsAux : Nat → Nat → List Char → List Char
  | 0, _, acc => acc
  | fuel + 1, n, acc =>
    if n < 10 then digitChar (n % 10) :: acc
    else natToCharsAux fuel (n / 10) (digitChar (n % 10) :: acc)

/-- Model of Rust `u64::to_string` (std library, outside the repository):
the plain decimal digits of `n`. -/
def natToChars (n : Nat) : List Char := natToCharsAux (n + 1) n []

/-- Model of Rust `i64::to_string` (std library, outside the repository):
optional minus sign followed by the decimal digits. -/
def intToChars (i : Int) : List Char :=
  if i < 0 then '-' :: natToChars i.natAbs else natToChars i.toNat

/-- Numeric value of a list of ASCII digits, most significant first. -/
def digitsVal (l : List Char) : Nat :=
  l.foldl (fun a c => a * 10 + (c.toNat - 48)) 0

/-- All characters are ASCII digits. -/
def allDigits (l : List Char) : Bool := l.all Char.isDigit

/-- Rust unsigned integer parsing accepts one optional leading plus sign. -/
def stripPlus : List Char → List Char
  | [] => []
  | c :: rest => if c = '+' then rest else c :: rest

/-- Model of Rust `str::parse::<u64>` (std library, outside the repository):
an optional plus sign, then a non-empty run of ASCII digits, rejecting
values above `u64::MAX`.  Rust fails at the first overflowing step; the
observable input/output behaviour is the same. -/
def rustParseU64 (l : List Char) : Option Nat :=
  let m := stripPlus l
  if m.isEmpty || !(allDigits m) then none
  else if digitsVal m ≤ 18446744073709551615 then some (digitsVal m) else none

/-- Model of Rust `str::parse::<i64>` (std library, outside the repository):
optional sign, non-empty digits, range checked against `i64`. -/
def rustParseI64 (l : List Char) : Option Int :=
  match l with
  | '-' :: rest =>
    if rest.isEmpty || !(allDigits rest) then none
    else if digitsVal rest ≤ 9223372036854775808 then
      some (-(digitsVal rest : Int))
    else none
  | '+' :: rest =>
    if rest.isEmpty || !(allDigits rest) then none
    else if digitsVal rest ≤ 9223372036854775807 then
      some ((digitsVal rest : Int))
    else none
  | _ =>
    if l.isEmpty || !(allDigits l) then none
    else if digitsVal l ≤ 9223372036854775807 then
      some ((digitsVal l : Int))
    else none

/-! ## The model of `f64` -/

/-- Model of an `f64` value.  Finite values are exact rationals: every value
actually produced by the parser comes from a decimal literal, which this
model keeps exactly instead of rounding to the nearest binary double.  The
derived equality makes `nan = nan` true, unlike IEEE; no claim below
compares NaN values. -/
inductive F64 where
  | finite (q : Rat)
  | inf (neg : Bool)
  | nan
deriving DecidableEq

/-- Split one optional leading sign character; `true` means negative. -/
def splitSign : List Char → Bool × List Char
  | '-' :: rest => (true, rest)
  | '+' :: rest => (false, rest)
  | l => (false, l)

/-- Leading digit run and the remainder. -/
def spanDigits (l : List Char) : List Char × List Char :=
  (l.takeWhile Char.isDigit, l.dropWhile Char.isDigit)

/-- Exponent part after the `e` marker: optional sign and non-empty digits. -/
def parseExpPart (r : List Char) : Option (Int × List Char) :=
  let (eneg, r1) := splitSign r
  let (ds, r2) := spanDigits r1
  if ds.isEmpty then none
  else some ((if eneg then -(digitsVal ds : Int) else (digitsVal ds : Int)), r2)

/-- Model of Rust `str::parse::<f64>` (std library, outside the repository):
optional sign; `inf`, `infinity` or `nan` case-insensitively; otherwise
digits with an optional fraction and an optional decimal exponent, with at
least one mantissa digit.  The numeric value is kept as an exact rational
instead of being rounded to the nearest double (and never overflows to
infinity); this is exact on every literal the development evaluates. -/
def rustParseF64 (l : List Char) : Option F64 :=
  let (neg, m) := splitSign l
  let low := m.map Char.toLower
  if low = ['i', 'n', 'f'] ∨ low = ['i', 'n', 'f', 'i', 'n', 'i', 't', 'y'] then
    some (.inf neg)
  else if low = ['n', 'a', 'n'] then some .nan
  else
    let (ip, r1) := spanDigits m
    let (fp, r2) :=
      match r1 with
      | '.' :: r => spanDigits r
      | _ => ([], r1)
    if (ip ++ fp).isEmpty then none
    else
      let expRes :=
        match r2 with
        | 'e' :: r => parseExpPart r
        | 'E' :: r => parseExpPart r
        | _ => some ((0 : Int), r2)
      match expRes with
      | none => none
      | some (e, rem) =>
        if !rem.isEmpty then none
        else
          let mant : Int := if neg then -(digitsVal (ip ++ fp) : Int) else (digitsVal (ip ++ fp) : Int)
          let q : Rat :=
            match e - (fp.length : Int) with
            | .ofNat k => mkRat (mant * (10 : Int) ^ k) 1
            | .negSucc k => mkRat mant (10 ^ (k + 1))
          some (.finite q)

/-! ## The data model (`OwnedValue`, `InfluxDatapoint`) -/

/-- Shallow embedding of `simd_json::OwnedValue` as used by the codec.  The
scalar variants carry their payloads; `Null`, `Array` and `Object` carry
none because the codec only ever matches on the variant (the wildcard arm
of `try_to_bytes`) and the parser never constructs them. -/
inductive OwnedValue where
  | Null
  | Bool (b : Bool)
  | I64 (n : Int)
  | F64 (x : F64)
  | String (s : List Char)
  | Array
  | Object
deriving DecidableEq

/-- An association-list map with the insert-replacing-existing semantics of
`halfbrown::HashMap::insert` (order of first insertion preserved for fresh
keys, which only matters up to the `mapEquivB` comparison below). -/
def insertKV {V : Type} (res : List (List Char × V)) (k : List Char) (v : V) :
    List (List Char × V) :=
  match res with
  | [] => [(k, v)]
  | (k2, v2) :: rest => if k2 = k then (k, v) :: rest else (k2, v2) :: insertKV rest k v

/-- Lookup in the association-list map. -/
def lookupKV {V : Type} (k : List Char) : List (List Char × V) → Option V
  | [] => none
  | (k2, v2) :: rest => if k2 = k then some v2 else lookupKV k rest

/-- Map equality up to ordering: every binding of each map is looked up with
the same value in the other.  This is the hash-map equality used by the
repository when comparing parsed and reference data. -/
def mapEquivB {V : Type} [DecidableEq V] (m1 m2 : List (List Char × V)) : Bool :=
  m1.all (fun p => decide (lookupKV p.1 m2 = some p.2)) &&
  m2.all (fun p => decide (lookupKV p.1 m1 = some p.2))

/-- The parsed data point (`struct InfluxDatapoint`).  The `u64` timestamp
is a `Nat`; theorems that need the `u64` range state `timestamp < 2 ^ 64`
explicitly. -/
structure InfluxDatapoint where
  measurement : List Char
  tags : List (List Char × List Char)
  fields : List (List Char × OwnedValue)
  timestamp : Nat
deriving DecidableEq

/-- Data-point equality up to reordering of the tag and field maps. -/
def dpEquivB (d1 d2 : InfluxDatapoint) : Bool :=
  decide (d1.measurement = d2.measurement) &&
  mapEquivB d1.tags d2.tags &&
  mapEquivB d1.fields d2.fields &&
  decide (d1.timestamp = d2.timestamp)

/-! ## Errors

Every constructor corresponds to one `ErrorKind::InvalidInfluxData(msg)`
construction site of the source (message quoted in the comment), except
`outOfFuel`, which is an artifact of the fuel-based embedding of the two
`loop`s and is never produced with the fuel supplied by `parse`. -/

inductive InfluxError where
  /-- message `Empty.` (empty input after stripping trailing newlines) -/
  | empty
  /-- message `Expected ... but did not find it` (scanner ran off the end) -/
  | expectedStop (end1 : Char) (end2 end3 : Option Char)
  /-- message `non terminated escape sequence` -/
  | nonTerminatedEscape
  /-- message `Tag without value` -/
  | tagWithoutValue
  /-- message `= found in tag value` -/
  | equalsInTagValue
  /-- message `Unexpected end of values` -/
  | unexpectedEndOfValues
  /-- message `Unexpected character after string` -/
  | unexpectedAfterString
  /-- propagated failure of `s.parse::<f64>()` -/
  | badFloat
  /-- propagated failure of `res.parse::<i64>()` -/
  | badInt
  /-- message `Unexpected character (c), expected space or comma.` -/
  | unexpectedCharAfterInt (c : Char)
  /-- message `Unexpected end of line` -/
  | unexpectedEndOfLine
  /-- message `Unexpected character or end of value definition` -/
  | endOfValue
  /-- propagated failure of `chars.as_str().parse::<u64>()` -/
  | badTimestamp
  /-- message `Arrays are not supported for field values` (encode side) -/
  | unsupportedFieldValue
  /-- models the `unreachable!()` in `parse_fields` -/
  | unreachableCase
  /-- artifact of the fuel-based loop embedding; never reached -/
  | outOfFuel
deriving DecidableEq

/-! ## The scanner (`parse_to_char3` and friends) -/

/-- Shallow embedding of `parse_to_char3`: scan until the first unescaped
occurrence of one of up to three stop characters, unescaping backslash
followed by a backslash or a stop character, passing any other escape
through verbatim.  Returns the consumed text, the stop character found and
the remaining input (the Rust version advances a `Chars` iterator in
place). -/
def parse_to_char3 (end1 : Char) (end2 end3 : Option Char) :
    List Char → Except InfluxError (List Char × Char × List Char)
  | [] => .error (.expectedStop end1 end2 end3)
  | c :: rest =>
    if c = end1 then .ok ([], end1, rest)
    else if end2 = some c then .ok ([], c, rest)
    else if end3 = some c then .ok ([], c, rest)
    else if c = '\\' then
      match rest with
      | [] => .error .nonTerminatedEscape
      | c2 :: rest2 =>
        if c2 = '\\' ∨ c2 = end1 ∨ end2 = some c2 ∨ end3 = some c2 then
          match parse_to_char3 end1 end2 end3 rest2 with
          | .ok (res, stop, rem) => .ok (c2 :: res, stop, rem)
          | .error e => .error e
        else
          match parse_to_char3 end1 end2 end3 rest2 with
          | .ok (res, stop, rem) => .ok ('\\' :: c2 :: res, stop, rem)
          | .error e => .error e
    else
      match parse_to_char3 end1 end2 end3 rest with
      | .ok (res, stop, rem) => .ok (c :: res, stop, rem)
      | .error e => .error e

/-- `parse_to_char2`: two stop characters. -/
def parse_to_char2 (end1 end2 : Char) (l : List Char) :
    Except InfluxError (List Char × Char × List Char) :=
  parse_to_char3 end1 (some end2) none l

/-- `parse_to_char`: a single stop character (the stop itself is dropped). -/
def parse_to_char (e : Char) (l : List Char) :
    Except InfluxError (List Char × List Char) :=
  match parse_to_char3 e none none l with
  | .ok (res, _, rem) => .ok (res, rem)
  | .error e => .error e

/-! ## Field values (`parse_string`, `float_or_bool`, `parse_value`) -/

/-- Shallow embedding of `parse_string`: the body was introduced by a double
quote; scan to the closing quote, then require a comma or space
terminator. -/
def parse_string (l : List Char) :
    Except InfluxError (OwnedValue × Char × List Char) :=
  match parse_to_char '"' l with
  | .error e => .error e
  | .ok (val, rest) =>
    match rest with
    | ',' :: rest2 => .ok (.String val, ',', rest2)
    | ' ' :: rest2 => .ok (.String val, ' ', rest2)
    | _ => .error .unexpectedAfterString

/-- Shallow embedding of `float_or_bool`: the ten boolean literals, else a
float parse. -/
def float_or_bool (s : List Char) : Except InfluxError OwnedValue :=
  if s = ['t'] ∨ s = ['T'] ∨ s = ['t', 'r', 'u', 'e'] ∨ s = ['T', 'r', 'u', 'e'] ∨
      s = ['T', 'R', 'U', 'E'] then .ok (.Bool true)
  else if s = ['f'] ∨ s = ['F'] ∨ s = ['f', 'a', 'l', 's', 'e'] ∨
      s = ['F', 'a', 'l', 's', 'e'] ∨ s = ['F', 'A', 'L', 'S', 'E'] then .ok (.Bool false)
  else
    match rustParseF64 s with
    | some x => .ok (.F64 x)
    | none => .error .badFloat

/-- The accumulation loop of `parse_value` (its `while let` loop), carrying
the buffer `res`.  Note the order of the match arms mirrors the source:
comma and space terminate, `i` demands an immediate comma or space and an
integer parse of the buffer, a backslash consumes the next character
literally into the buffer, anything else is buffered. -/
def parse_value_go (res : List Char) :
    List Char → Except InfluxError (OwnedValue × Char × List Char)
  | [] => .error .endOfValue
  | c :: rest =>
    if c = ',' then
      match float_or_bool res with
      | .ok v => .ok (v, ',', rest)
      | .error e => .error e
    else if c = ' ' then
      match float_or_bool res with
      | .ok v => .ok (v, ' ', rest)
      | .error e => .error e
    else if c = 'i' then
      match rest with
      | ' ' :: rest2 =>
        match rustParseI64 res with
        | some n => .ok (.I64 n, ' ', rest2)
        | none => .error .badInt
      | ',' :: rest2 =>
        match rustParseI64 res with
        | some n => .ok (.I64 n, ',', rest2)
        | none => .error .badInt
      | c2 :: _ => .error (.unexpectedCharAfterInt c2)
      | [] => .error .unexpectedEndOfLine
    else if c = '\\' then
      match rest with
      | c2 :: rest2 => parse_value_go (res ++ [c2]) rest2
      | [] => parse_value_go res []
    else parse_value_go (res ++ [c]) rest

/-- Shallow embedding of `parse_value`: dispatch on the first character of
the field value.  A double quote enters the string path; a comma, space or
end of input is an immediate error; any other character (including a
backslash) is pushed into the buffer before the accumulation loop starts. -/
def parse_value (l : List Char) :
    Except InfluxError (OwnedValue × Char × List Char) :=
  match l with
  | [] => .error .unexpectedEndOfValues
  | c :: rest =>
    if c = '"' then parse_string rest
    else if c = ' ' ∨ c = ',' then .error .unexpectedEndOfValues
    else parse_value_go [c] rest

/-! ## Fields and tags (`parse_fields`, `parse_tags`) -/

/-- The `loop` of `parse_fields`, with fuel.  A comma continues, a space
inserts and returns; any other terminator is the `unreachable!()` of the
source (modelled as an error; `parse_value` only ever returns a comma or a
space). -/
def parse_fields_go (fuel : Nat) (res : List (List Char × OwnedValue)) (l : List Char) :
    Except InfluxError (List (List Char × OwnedValue) × List Char) :=
  match fuel with
  | 0 => .error .outOfFuel
  | fuel + 1 =>
    match parse_to_char '=' l with
    | .error e => .error e
    | .ok (key, rest) =>
      match parse_value rest with
      | .error e => .error e
      | .ok (val, c, rest2) =>
        if c = ',' then parse_fields_go fuel (insertKV res key val) rest2
        else if c = ' ' then .ok (insertKV res key val, rest2)
        else .error .unreachableCase

/-- Shallow embedding of `parse_fields`.  The fuel `l.length + 1` is enough:
every iteration consumes at least the key terminator. -/
def parse_fields (l : List Char) :
    Except InfluxError (List (List Char × OwnedValue) × List Char) :=
  parse_fields_go (l.length + 1) [] l

/-- The `loop` of `parse_tags`, with fuel: scan a key (its terminator must
be `=`), scan a value (its terminator must not be `=`), insert, return on a
space and continue on a comma. -/
def parse_tags_go (fuel : Nat) (res : List (List Char × List Char)) (l : List Char) :
    Except InfluxError (List (List Char × List Char) × List Char) :=
  match fuel with
  | 0 => .error .outOfFuel
  | fuel + 1 =>
    match parse_to_char3 '=' (some ' ') (some ',') l with
    | .error e => .error e
    | .ok (key, c, rest) =>
      if c ≠ '=' then .error .tagWithoutValue
      else
        match parse_to_char3 '=' (some ' ') (some ',') rest with
        | .error e => .error e
        | .ok (val, c2, rest2) =>
          if c2 = '=' then .error .equalsInTagValue
          else
            let res2 := insertKV res key val
            if c2 = ' ' then .ok (res2, rest2)
            else parse_tags_go fuel res2 rest2

/-- Shallow embedding of `parse_tags`. -/
def parse_tags (l : List Char) :
    Except InfluxError (List (List Char × List Char) × List Char) :=
  parse_tags_go (l.length + 1) [] l

/-! ## The line parser (`parse`) -/

/-- The trailing-newline popping loop at the top of `parse`, working on the
reversed character list (the source pops from the end of the `String`);
`none` is the `Empty.` error, raised when popping exhausts the input. -/
def popNewlinesRev : List Char → Option (List Char)
  | [] => none
  | c :: rest => if c = '\n' then popNewlinesRev rest else some (c :: rest)

/-- Strip trailing newlines; `none` when nothing but newlines remains. -/
def stripTrailingNewlines (l : List Char) : Option (List Char) :=
  (popNewlinesRev l.reverse).map List.reverse

/-- Shallow embedding of `parse`: strip trailing newlines, scan the
measurement (stops comma and space), parse tags only when the measurement
terminator was a comma, parse the fields, then parse the whole remainder as
the `u64` timestamp. -/
def parse (data : List Char) : Except InfluxError InfluxDatapoint :=
  match stripTrailingNewlines data with
  | none => .error .empty
  | some stripped =>
    match parse_to_char2 ',' ' ' stripped with
    | .error e => .error e
    | .ok (measurement, c, rest) =>
      match (if c = ',' then parse_tags rest else .ok ([], rest)) with
      | .error e => .error e
      | .ok (tags, rest2) =>
        match parse_fields rest2 with
        | .error e => .error e
        | .ok (fields, rest3) =>
          match rustParseU64 rest3 with
          | none => .error .badTimestamp
          | some ts => .ok ⟨measurement, tags, fields, ts⟩

/-! ## The serialiser (`Escaper::escape`, `process_string`, `try_to_bytes`) -/

/-- Prefix every character satisfying `p` with a backslash (the shared shape
of `Escaper::escape` and the body of `process_string`). -/
def escapeChars (p : Char → Bool) : List Char → List Char
  | [] => []
  | c :: rest => if p c then '\\' :: c :: escapeChars p rest else c :: escapeChars p rest

/-- The five meta characters of `Escaper::escape for String`. -/
def influxMeta (c : Char) : Bool :=
  c = ',' || c = ' ' || c = '\\' || c = '=' || c = '"'

/-- Shallow embedding of `Escaper::escape` (used for the measurement, tag
keys and values, and field keys). -/
def escape (s : List Char) : List Char := escapeChars influxMeta s

/-- The two meta characters escaped inside string field values. -/
def stringMeta (c : Char) : Bool := c = '\\' || c = '"'

/-- Shallow embedding of `process_string`: escape backslash and double
quote, then wrap in double quotes. -/
def process_string (s : List Char) : List Char :=
  '"' :: escapeChars stringMeta s ++ ['"']

/-- Rust `bool::to_string`. -/
def boolToChars (b : Bool) : List Char :=
  if b then ['t', 'r', 'u', 'e'] else ['f', 'a', 'l', 's', 'e']

/-- Smallest `k` (up to the fuel) with `d` dividing `10 ^ k`. -/
def findPow10Aux (d : Nat) (k : Nat) : Nat → Option Nat
  | 0 => none
  | fuel + 1 => if 10 ^ k % d = 0 then some k else findPow10Aux d (k + 1) fuel

/-- Decimal fraction length for denominator `d`, if `d` is 2-5-smooth. -/
def findPow10 (d : Nat) (bound : Nat) : Option Nat := findPow10Aux d 0 (bound + 1)

/-- Digits of `m` left-padded with zeros to `k` places. -/
def padDigits (k : Nat) (m : Nat) : List Char :=
  let ds := natToChars m
  List.replicate (k - ds.length) '0' ++ ds

/-- Model of Rust `f64::to_string` (std library, outside the repository) on
the exact-rational float model: the exact finite decimal expansion when the
denominator divides a power of ten (which holds for every value
`rustParseF64` produces), integer values without a fraction, `inf`, `-inf`
and `NaN` as Rust prints them.  No theorem below depends on the output of
this function. -/
def f64ToChars : F64 → List Char
  | .inf true => ['-', 'i', 'n', 'f']
  | .inf false => ['i', 'n', 'f']
  | .nan => ['N', 'a', 'N']
  | .finite q =>
    let sign : List Char := if q < 0 then ['-'] else []
    match findPow10 q.den q.den with
    | some k =>
      if k = 0 then sign ++ natToChars q.num.natAbs
      else
        let scaled : Nat := q.num.natAbs * 10 ^ k / q.den
        sign ++ natToChars (scaled / 10 ^ k) ++ '.' :: padDigits k (scaled % 10 ^ k)
    | none => sign ++ natToChars q.num.natAbs ++ '/' :: natToChars q.den

/-- The field-value rendering match inside the `for` loop of
`try_to_bytes`: strings are quoted and escaped, numbers and booleans are
printed, any other variant is the `Arrays are not supported for field
values` error. -/
def render_field : OwnedValue → Except InfluxError (List Char)
  | .String s => .ok (process_string s)
  | .F64 x => .ok (f64ToChars x)
  | .I64 n => .ok (intToChars n)
  | .Bool b => .ok (boolToChars b)
  | _ => .error .unsupportedFieldValue

/-- The `for` loop of `try_to_bytes` collecting `key\=escaped=value`
entries, stopping at the first non-scalar field value. -/
def collect_fields : List (List Char × OwnedValue) → Except InfluxError (List (List Char))
  | [] => .ok []
  | (k, v) :: rest =>
    match render_field v with
    | .error e => .error e
    | .ok val =>
      match collect_fields rest with
      | .error e => .error e
      | .ok ops => .ok ((escape k ++ '=' :: val) :: ops)

/-- Join with a separator character (Rust `Vec::<String>::join`). -/
def joinSep (sep : Char) : List (List Char) → List Char
  | [] => []
  | [x] => x
  | x :: xs => x ++ sep :: joinSep sep xs

/-- One `key=value` tag entry with both sides escaped (the closure inside
the `map` over tags in `try_to_bytes`). -/
def tagOp (p : List Char × List Char) : List Char :=
  escape p.1 ++ '=' :: escape p.2

/-- Shallow embedding of `InfluxDatapoint::try_to_bytes`: escaped
measurement; a comma and the comma-joined escaped tags when the joined tag
text is non-empty; a space; the space-joined field entries; a space; the
decimal timestamp. -/
def InfluxDatapoint.try_to_bytes (d : InfluxDatapoint) :
    Except InfluxError (List Char) :=
  let output := escape d.measurement
  let tagsStr := joinSep ',' (d.tags.map tagOp)
  let output := if tagsStr.isEmpty then output else output ++ ',' :: tagsStr
  let output := output ++ [' ']
  match collect_fields d.fields with
  | .error e => .error e
  | .ok ops => .ok (output ++ joinSep ' ' ops ++ ' ' :: natToChars d.timestamp)

/-- The field values rejected by the wildcard arm of the rendering match in
`try_to_bytes` (everything that is not an integer, float, boolean or
string). -/
def isNonScalar : OwnedValue → Bool
  | .Null => true
  | .Array => true
  | .Object => true
  | _ => false

/-- Modelled from the spec: the unquoted-value accumulation as the spec
words it (every backslash, regardless of its position in the value,
consumes the immediately following character literally into the buffer).
It reuses the accumulation loop `parse_value_go` but starts it with an
empty buffer on the whole value, so that a leading backslash is also
treated as an escape introducer.  This definition exists only to be
compared against `parse_value`, whose dispatch consumes the first
character into the buffer verbatim. -/
def spec_parse_value (l : List Char) :
    Except InfluxError (OwnedValue × Char × List Char) :=
  match l with
  | [] => .error .unexpectedEndOfValues
  | c :: rest =>
    if c = '"' then parse_string rest
    else if c = ' ' ∨ c = ',' then .error .unexpectedEndOfValues
    else parse_value_go [] (c :: rest)

/-! ## General lemmas about the embedding -/

/-- Inserting never produces the empty map. -/
theorem insertKV_ne_nil {V : Type} (res : List (List Char × V)) (k : List Char) (v : V) :
    insertKV res k v ≠ [] := by
  cases res with
  | nil => simp [insertKV]
  | cons p rest =>
    obtain ⟨k2, v2⟩ := p
    simp only [insertKV]
    split <;> simp

/-- A map returned by the field loop always contains an entry. -/
theorem parse_fields_go_ok_ne_nil (fuel : Nat) :
    ∀ res l m rem, parse_fields_go fuel res l = .ok (m, rem) → m ≠ [] := by
  induction fuel with
  | zero => intro res l m rem h; cases h
  | succ fuel ih =>
    intro res l m rem h
    simp only [parse_fields_go] at h
    split at h
    · cases h
    · split at h
      · cases h
      · split at h
        · exact ih _ _ _ _ h
        · split at h
          · cases h
            exact insertKV_ne_nil _ _ _
          · cases h

/-- Newline-only text makes the popping loop run out of characters. -/
theorem popNewlinesRev_all_newlines (m : List Char) (h : ∀ c ∈ m, c = '\n') :
    popNewlinesRev m = none := by
  induction m with
  | nil => rfl
  | cons c rest ih =>
    have hc : c = '\n' := h c (List.mem_cons_self c rest)
    simp only [popNewlinesRev, if_pos hc]
    exact ih (fun c2 hc2 => h c2 (List.mem_cons_of_mem c hc2))

/-- Step rule of the scanner: a stop character at the cursor ends the scan
at once. -/
theorem parse_to_char3_stop (e1 : Char) (e2 e3 : Option Char) (stop : Char)
    (l : List Char) (h : stop = e1 ∨ e2 = some stop ∨ e3 = some stop) :
    parse_to_char3 e1 e2 e3 (stop :: l) = .ok ([], stop, l) := by
  cases l with
  | nil =>
    by_cases h1 : stop = e1
    · subst h1; simp [parse_to_char3]
    · by_cases h2 : e2 = some stop
      · simp [parse_to_char3, h1, h2]
      · have h3 : e3 = some stop := by tauto
        simp [parse_to_char3, h1, h2, h3]
  | cons c2 tail =>
    by_cases h1 : stop = e1
    · subst h1; simp [parse_to_char3]
    · by_cases h2 : e2 = some stop
      · simp [parse_to_char3, h1, h2]
      · have h3 : e3 = some stop := by tauto
        simp [parse_to_char3, h1, h2, h3]

/-- Step rule of the scanner: an ordinary character (not a stop, not a
backslash) is emitted and scanning continues. -/
theorem parse_to_char3_cons_plain (e1 : Char) (e2 e3 : Option Char) (c : Char)
    (l : List Char) (h1 : ¬c = e1) (h2 : ¬e2 = some c) (h3 : ¬e3 = some c)
    (h4 : ¬c = '\\') :
    parse_to_char3 e1 e2 e3 (c :: l) =
      (parse_to_char3 e1 e2 e3 l).map (fun t => (c :: t.1, t.2)) := by
  cases l with
  | nil => simp [parse_to_char3, h1, h2, h3, h4, Except.map]
  | cons c2 tail =>
    cases hres : parse_to_char3 e1 e2 e3 (c2 :: tail) with
    | ok t =>
      obtain ⟨r, st, rm⟩ := t
      simp [parse_to_char3, h1, h2, h3, h4, hres, Except.map]
    | error e => simp [parse_to_char3, h1, h2, h3, h4, hres, Except.map]

/-- Step rule of the scanner: a backslash followed by a backslash or an
active stop character emits only that following character. -/
theorem parse_to_char3_escape_known (e1 : Char) (e2 e3 : Option Char) (c2 : Char)
    (l : List Char)
    (hb1 : ¬ '\\' = e1) (hb2 : ¬e2 = some '\\') (hb3 : ¬e3 = some '\\')
    (hr : c2 = '\\' ∨ c2 = e1 ∨ e2 = some c2 ∨ e3 = some c2) :
    parse_to_char3 e1 e2 e3 ('\\' :: c2 :: l) =
      (parse_to_char3 e1 e2 e3 l).map (fun t => (c2 :: t.1, t.2)) := by
  cases hres : parse_to_char3 e1 e2 e3 l with
  | ok t =>
    obtain ⟨r, st, rm⟩ := t
    simp [parse_to_char3, hb1, hb2, hb3, hr, hres, Except.map]
  | error e => simp [parse_to_char3, hb1, hb2, hb3, hr, hres, Except.map]

/-- Step rule of the value loop: a comma terminates the unquoted value and
classifies the buffer. -/
theorem parse_value_go_comma (res rest : List Char) :
    parse_value_go res (',' :: rest) =
      (float_or_bool res).map (fun v => (v, ',', rest)) := by
  cases rest with
  | nil =>
    cases hfb : float_or_bool res with
    | ok v => simp [parse_value_go, hfb, Except.map]
    | error e => simp [parse_value_go, hfb, Except.map]
  | cons c2 tail =>
    by_cases h2 : c2 = ' '
    · subst h2
      cases hfb : float_or_bool res with
      | ok v => simp [parse_value_go, hfb, Except.map]
      | error e => simp [parse_value_go, hfb, Except.map]
    · by_cases h3 : c2 = ','
      · subst h3
        cases hfb : float_or_bool res with
        | ok v => simp [parse_value_go, hfb, Except.map]
        | error e => simp [parse_value_go, hfb, Except.map]
      · cases hfb : float_or_bool res with
        | ok v => simp [parse_value_go, h2, h3, hfb, Except.map]
        | error e => simp [parse_value_go, h2, h3, hfb, Except.map]

/-- Step rule of the value loop: a space terminates the unquoted value and
classifies the buffer. -/
theorem parse_value_go_space (res rest : List Char) :
    parse_value_go res (' ' :: rest) =
      (float_or_bool res).map (fun v => (v, ' ', rest)) := by
  cases rest with
  | nil =>
    cases hfb : float_or_bool res with
    | ok v => simp [parse_value_go, hfb, Except.map]
    | error e => simp [parse_value_go, hfb, Except.map]
  | cons c2 tail =>
    by_cases h2 : c2 = ' '
    · subst h2
      cases hfb : float_or_bool res with
      | ok v => simp [parse_value_go, hfb, Except.map]
      | error e => simp [parse_value_go, hfb, Except.map]
    · by_cases h3 : c2 = ','
      · subst h3
        cases hfb : float_or_bool res with
        | ok v => simp [parse_value_go, hfb, Except.map]
        | error e => simp [parse_value_go, hfb, Except.map]
      · cases hfb : float_or_bool res with
        | ok v => simp [parse_value_go, h2, h3, hfb, Except.map]
        | error e => simp [parse_value_go, h2, h3, hfb, Except.map]

/-- Step rule of the value loop: an ordinary character is buffered. -/
theorem parse_value_go_push (res : List Char) (c : Char) (rest : List Char)
    (h1 : ¬c = ',') (h2 : ¬c = ' ') (h3 : ¬c = 'i') (h4 : ¬c = '\\') :
    parse_value_go res (c :: rest) = parse_value_go (res ++ [c]) rest := by
  cases rest with
  | nil => simp [parse_value_go, h1, h2, h3, h4]
  | cons c2 tail =>
    by_cases hs : c2 = ' '
    · subst hs; simp [parse_value_go, h1, h2, h3, h4]
    · by_cases hc : c2 = ','
      · subst hc; simp [parse_value_go, h1, h2, h3, h4]
      · simp [parse_value_go, h1, h2, h3, h4, hs, hc]

/-- A scan whose first character is not a stop character returns a
non-empty text. -/
theorem parse_to_char3_head_not_stop_ne_nil (e1 : Char) (e2 e3 : Option Char)
    (c : Char) (l res : List Char) (stop : Char) (rem : List Char)
    (h : parse_to_char3 e1 e2 e3 (c :: l) = .ok (res, stop, rem))
    (h1 : ¬(c = e1)) (h2 : ¬(e2 = some c)) (h3 : ¬(e3 = some c)) : res ≠ [] := by
  unfold parse_to_char3 at h
  rw [if_neg h1, if_neg h2, if_neg h3] at h
  split at h
  · split at h
    · cases h
    · split at h
      · split at h
        · cases h; simp
        · cases h
      · split at h
        · cases h; simp
        · cases h
  · split at h
    · cases h; simp
    · cases h

/-- A non-scalar field value makes the collecting loop fail with the
`Arrays are not supported for field values` error. -/
theorem collect_fields_nonscalar (fields : List (List Char × OwnedValue))
    (h : ∃ p ∈ fields, isNonScalar p.2 = true) :
    collect_fields fields = .error .unsupportedFieldValue := by
  induction fields with
  | nil =>
    obtain ⟨p, hp, -⟩ := h
    exact absurd hp (List.not_mem_nil p)
  | cons q rest ih =>
    obtain ⟨k, v⟩ := q
    obtain ⟨p, hp, hns⟩ := h
    rcases List.mem_cons.mp hp with heq | hmem
    · subst heq
      cases v with
      | Null => simp [collect_fields, render_field]
      | Array => simp [collect_fields, render_field]
      | Object => simp [collect_fields, render_field]
      | Bool b => simp [isNonScalar] at hns
      | I64 n => simp [isNonScalar] at hns
      | F64 x => simp [isNonScalar] at hns
      | String s => simp [isNonScalar] at hns
    · have hrec := ih ⟨p, hmem, hns⟩
      cases v <;> simp [collect_fields, render_field, hrec]

/-! ## Decimal printing and parsing round trip -/

/-- Digit characters are digits. -/
theorem digitChar_isDigit : ∀ n, n < 10 → (digitChar n).isDigit = true := by decide

/-- Digit characters carry their value. -/
theorem digitChar_toNat : ∀ n, n < 10 → (digitChar n).toNat - 48 = n := by decide

/-- The printing loop produces non-empty digit text with the printed
value. -/
theorem natToCharsAux_spec (fuel : Nat) : ∀ n acc, n < fuel →
    ∃ ds, natToCharsAux fuel n acc = ds ++ acc ∧ ds ≠ [] ∧
      (∀ c ∈ ds, c.isDigit = true) ∧ digitsVal ds = n := by
  induction fuel with
  | zero => intro n acc h; exact absurd h (Nat.not_lt_zero n)
  | succ fuel ih =>
    intro n acc h
    by_cases h10 : n < 10
    · refine ⟨[digitChar (n % 10)], by simp [natToCharsAux, h10], by simp, ?_, ?_⟩
      · intro c hc
        simp at hc
        subst hc
        exact digitChar_isDigit _ (Nat.mod_lt _ (by omega))
      · have := digitChar_toNat (n % 10) (Nat.mod_lt _ (by omega))
        simp [digitsVal, this]
        omega
    · have hdiv : n / 10 < n := Nat.div_lt_self (by omega) (by omega)
      obtain ⟨ds, hds, hne, hdig, hval⟩ := ih (n / 10) (digitChar (n % 10) :: acc) (by omega)
      refine ⟨ds ++ [digitChar (n % 10)], ?_, by simp, ?_, ?_⟩
      · rw [show natToCharsAux (fuel + 1) n acc =
          natToCharsAux fuel (n / 10) (digitChar (n % 10) :: acc) from by
            simp [natToCharsAux, h10], hds]
        simp
      · intro c hc
        rcases List.mem_append.mp hc with hm | hm
        · exact hdig c hm
        · simp at hm
          subst hm
          exact digitChar_isDigit _ (Nat.mod_lt _ (by omega))
      · have := digitChar_toNat (n % 10) (Nat.mod_lt _ (by omega))
        unfold digitsVal at hval ⊢
        rw [List.foldl_append, hval]
        simp [this]
        omega

/-- The decimal print of a natural number: non-empty, all digits, and its
digit value is the number itself. -/
theorem natToChars_spec (n : Nat) :
    natToChars n ≠ [] ∧ (∀ c ∈ natToChars n, c.isDigit = true) ∧
      digitsVal (natToChars n) = n := by
  obtain ⟨ds, hds, hne, hdig, hval⟩ := natToCharsAux_spec (n + 1) n [] (by omega)
  unfold natToChars
  rw [hds]
  simpa using ⟨hne, hdig, hval⟩

/-- Round trip of the timestamp: parsing the decimal print of a `u64`
value gives the value back. -/
theorem rustParseU64_natToChars (n : Nat) (h : n ≤ 18446744073709551615) :
    rustParseU64 (natToChars n) = some n := by
  obtain ⟨hne, hdig, hval⟩ := natToChars_spec n
  have hsp : stripPlus (natToChars n) = natToChars n := by
    cases hd : natToChars n with
    | nil => rfl
    | cons c tl =>
      have hcd : c.isDigit = true := hdig c (by rw [hd]; exact List.mem_cons_self c tl)
      have hcp : ¬c = '+' := by
        intro hc
        subst hc
        exact absurd hcd (by decide)
      simp [stripPlus, hcp]
  have h1 : (natToChars n).isEmpty = false := by
    cases hd : natToChars n with
    | nil => exact absurd hd hne
    | cons c tl => rfl
  have h2 : allDigits (natToChars n) = true := by
    unfold allDigits
    rw [List.all_eq_true]
    intro c hc
    exact hdig c hc
  unfold rustParseU64
  rw [hsp]
  simp [h1, h2, hval, h]

/-- Stripping trailing newlines leaves any text ending in the decimal
print of a number unchanged. -/
theorem stripTrailingNewlines_ends_digits (pre : List Char) (n : Nat) :
    stripTrailingNewlines (pre ++ natToChars n) = some (pre ++ natToChars n) := by
  obtain ⟨hne, hdig, -⟩ := natToChars_spec n
  unfold stripTrailingNewlines
  cases hr : (natToChars n).reverse with
  | nil => exact absurd (by simpa using congrArg List.reverse hr) hne
  | cons d tl =>
    have hd : d.isDigit = true := by
      refine hdig d ?_
      rw [← List.mem_reverse, hr]
      exact List.mem_cons_self d tl
    have hdn : ¬d = '\n' := by
      intro he
      subst he
      exact absurd hd (by decide)
    have hrev : (pre ++ natToChars n).reverse = d :: (tl ++ pre.reverse) := by
      rw [List.reverse_append, hr, List.cons_append]
    rw [hrev]
    simp only [popNewlinesRev, if_neg hdn]
    rw [← hrev]
    simp

/-! ## Map lemmas -/

/-- Appending a fresh binding does not make an absent key present. -/
theorem lookupKV_append_single {V : Type} (res : List (List Char × V))
    (k k2 : List Char) (v2 : V) (h : lookupKV k res = none) (hne : ¬k2 = k) :
    lookupKV k (res ++ [(k2, v2)]) = none := by
  induction res with
  | nil => simp [lookupKV, hne]
  | cons p r ih =>
    obtain ⟨k3, v3⟩ := p
    by_cases h3 : k3 = k
    · simp [lookupKV, h3] at h
    · simp only [lookupKV, if_neg h3] at h
      simpa [lookupKV, h3] using ih h

/-- Inserting an absent key appends the binding at the end. -/
theorem insertKV_append {V : Type} (res : List (List Char × V)) (k : List Char)
    (v : V) (h : lookupKV k res = none) : insertKV res k v = res ++ [(k, v)] := by
  induction res with
  | nil => simp [insertKV]
  | cons p r ih =>
    obtain ⟨k2, v2⟩ := p
    by_cases h2 : k2 = k
    · simp [lookupKV, h2] at h
    · simp only [lookupKV, if_neg h2] at h
      simp [insertKV, h2, ih h]

/-- With unique keys, each binding is found by lookup. -/
theorem lookupKV_self {V : Type} :
    ∀ (m : List (List Char × V)) (k : List Char) (v : V),
      (m.map Prod.fst).Nodup → (k, v) ∈ m → lookupKV k m = some v := by
  intro m
  induction m with
  | nil => intro k v _ hmem; exact absurd hmem (List.not_mem_nil _)
  | cons p r ih =>
    intro k v hnd hmem
    obtain ⟨k2, v2⟩ := p
    rcases List.mem_cons.mp hmem with he | hm
    · injection he with e1 e2
      subst e1
      subst e2
      simp [lookupKV]
    · by_cases h2 : k2 = k
      · subst h2
        rw [List.map_cons] at hnd
        exact absurd (List.mem_map_of_mem Prod.fst hm) (List.nodup_cons.mp hnd).1
      · simp only [lookupKV, if_neg h2]
        exact ih k v (List.nodup_cons.mp hnd).2 hm

/-- A map with unique keys is equivalent to itself. -/
theorem mapEquivB_refl {V : Type} [DecidableEq V] (m : List (List Char × V))
    (h : (m.map Prod.fst).Nodup) : mapEquivB m m = true := by
  simp only [mapEquivB, Bool.and_eq_true, List.all_eq_true]
  constructor <;> exact fun p hp => decide_eq_true (lookupKV_self m p.1 p.2 h hp)

/-- Reflexivity of the data-point comparison for unique-keyed maps. -/
theorem dpEquivB_refl (d : InfluxDatapoint)
    (h1 : (d.tags.map Prod.fst).Nodup) (h2 : (d.fields.map Prod.fst).Nodup) :
    dpEquivB d d = true := by
  simp [dpEquivB, mapEquivB_refl _ h1, mapEquivB_refl _ h2]

/-! ## Scanning escaped text -/

/-- Scanning escaped text recovers it: if every character needing an
escape is recognised by the active stop set and every plain character is
neither a stop nor a backslash, the scanner consumes the escaped text,
stops at the appended stop character and returns the original text. -/
theorem scan_escaped (p : Char → Bool) (e1 : Char) (e2 e3 : Option Char)
    (stop : Char) (s rest : List Char)
    (hstop : stop = e1 ∨ e2 = some stop ∨ e3 = some stop)
    (hb1 : ¬ '\\' = e1) (hb2 : ¬e2 = some '\\') (hb3 : ¬e3 = some '\\')
    (hs : ∀ c ∈ s, (p c = true → (c = '\\' ∨ c = e1 ∨ e2 = some c ∨ e3 = some c)) ∧
      (p c = false → (¬c = e1 ∧ ¬e2 = some c ∧ ¬e3 = some c ∧ ¬c = '\\'))) :
    parse_to_char3 e1 e2 e3 (escapeChars p s ++ stop :: rest) = .ok (s, stop, rest) := by
  induction s with
  | nil => simpa [escapeChars] using parse_to_char3_stop e1 e2 e3 stop rest hstop
  | cons c s2 ih =>
    have hc := hs c (List.mem_cons_self c s2)
    have ih2 := ih (fun c2 h2 => hs c2 (List.mem_cons_of_mem c h2))
    by_cases hp : p c = true
    · rw [show escapeChars p (c :: s2) = '\\' :: c :: escapeChars p s2 from by
        simp [escapeChars, hp]]
      rw [List.cons_append, List.cons_append,
        parse_to_char3_escape_known e1 e2 e3 c _ hb1 hb2 hb3 (hc.1 hp), ih2]
      rfl
    · have hp2 : p c = false := by simpa using hp
      obtain ⟨h1, h2, h3, h4⟩ := hc.2 hp2
      rw [show escapeChars p (c :: s2) = c :: escapeChars p s2 from by
        simp [escapeChars, hp2]]
      rw [List.cons_append, parse_to_char3_cons_plain e1 e2 e3 c _ h1 h2 h3 h4, ih2]
      rfl

/-- Case analysis for a character in the five-character escape set. -/
theorem influxMeta_cases (c : Char) (h : influxMeta c = true) :
    c = ',' ∨ c = ' ' ∨ c = '\\' ∨ c = '=' ∨ c = '"' := by
  by_cases h1 : c = ','
  · exact Or.inl h1
  · by_cases h2 : c = ' '
    · exact Or.inr (Or.inl h2)
    · by_cases h3 : c = '\\'
      · exact Or.inr (Or.inr (Or.inl h3))
      · by_cases h4 : c = '='
        · exact Or.inr (Or.inr (Or.inr (Or.inl h4)))
        · by_cases h5 : c = '"'
          · exact Or.inr (Or.inr (Or.inr (Or.inr h5)))
          · exact absurd h (by simp [influxMeta, h1, h2, h3, h4, h5])

/-- A character outside the five-character escape set is none of them. -/
theorem influxMeta_false (c : Char) (h : influxMeta c = false) :
    ¬c = ',' ∧ ¬c = ' ' ∧ ¬c = '\\' ∧ ¬c = '=' ∧ ¬c = '"' := by
  refine ⟨?_, ?_, ?_, ?_, ?_⟩ <;> intro he <;> subst he <;> simp [influxMeta] at h

/-- Case analysis for a character in the string escape set. -/
theorem stringMeta_cases (c : Char) (h : stringMeta c = true) :
    c = '\\' ∨ c = '"' := by
  by_cases h1 : c = '\\'
  · exact Or.inl h1
  · by_cases h2 : c = '"'
    · exact Or.inr h2
    · exact absurd h (by simp [stringMeta, h1, h2])

/-- A character outside the string escape set is neither of them. -/
theorem stringMeta_false (c : Char) (h : stringMeta c = false) :
    ¬c = '\\' ∧ ¬c = '"' := by
  refine ⟨?_, ?_⟩ <;> intro he <;> subst he <;> simp [stringMeta] at h

/-- The measurement region (stops comma and space) accepts any text free
of `=` and `"`. -/
theorem region_ok_meas (s : List Char) (hq : ∀ c ∈ s, ¬c = '=' ∧ ¬c = '"') :
    ∀ c ∈ s, (influxMeta c = true →
        (c = '\\' ∨ c = ',' ∨ (some ' ' : Option Char) = some c ∨
          (none : Option Char) = some c)) ∧
      (influxMeta c = false →
        (¬c = ',' ∧ ¬(some ' ' : Option Char) = some c ∧
          ¬(none : Option Char) = some c ∧ ¬c = '\\')) := by
  intro c hc
  obtain ⟨h1, h2⟩ := hq c hc
  constructor
  · intro hm
    rcases influxMeta_cases c hm with h | h | h | h | h
    · exact Or.inr (Or.inl h)
    · exact Or.inr (Or.inr (Or.inl (by rw [h])))
    · exact Or.inl h
    · exact absurd h h1
    · exact absurd h h2
  · intro hm
    obtain ⟨m1, m2, m3, m4, m5⟩ := influxMeta_false c hm
    refine ⟨m1, ?_, ?_, m3⟩
    · intro he
      exact m2 (Option.some.inj he).symm
    · intro he
      cases he

/-- The tag regions (stops `=`, space, comma) accept any text free of
`"`. -/
theorem region_ok_tag (s : List Char) (hq : ∀ c ∈ s, ¬c = '"') :
    ∀ c ∈ s, (influxMeta c = true →
        (c = '\\' ∨ c = '=' ∨ (some ' ' : Option Char) = some c ∨
          (some ',' : Option Char) = some c)) ∧
      (influxMeta c = false →
        (¬c = '=' ∧ ¬(some ' ' : Option Char) = some c ∧
          ¬(some ',' : Option Char) = some c ∧ ¬c = '\\')) := by
  intro c hc
  have h1 := hq c hc
  constructor
  · intro hm
    rcases influxMeta_cases c hm with h | h | h | h | h
    · exact Or.inr (Or.inr (Or.inr (by rw [h])))
    · exact Or.inr (Or.inr (Or.inl (by rw [h])))
    · exact Or.inl h
    · exact Or.inr (Or.inl h)
    · exact absurd h h1
  · intro hm
    obtain ⟨m1, m2, m3, m4, m5⟩ := influxMeta_false c hm
    refine ⟨m4, ?_, ?_, m3⟩
    · intro he
      exact m2 (Option.some.inj he).symm
    · intro he
      exact m1 (Option.some.inj he).symm

/-- The field-key region (stop `=`) accepts any text free of comma, space
and `"`. -/
theorem region_ok_fieldkey (s : List Char)
    (hq : ∀ c ∈ s, ¬c = ',' ∧ ¬c = ' ' ∧ ¬c = '"') :
    ∀ c ∈ s, (influxMeta c = true →
        (c = '\\' ∨ c = '=' ∨ (none : Option Char) = some c ∨
          (none : Option Char) = some c)) ∧
      (influxMeta c = false →
        (¬c = '=' ∧ ¬(none : Option Char) = some c ∧
          ¬(none : Option Char) = some c ∧ ¬c = '\\')) := by
  intro c hc
  obtain ⟨h1, h2, h3⟩ := hq c hc
  constructor
  · intro hm
    rcases influxMeta_cases c hm with h | h | h | h | h
    · exact absurd h h1
    · exact absurd h h2
    · exact Or.inl h
    · exact Or.inr (Or.inl h)
    · exact absurd h h3
  · intro hm
    obtain ⟨m1, m2, m3, m4, m5⟩ := influxMeta_false c hm
    exact ⟨m4, fun he => Option.noConfusion he, fun he => Option.noConfusion he, m3⟩

/-- The quoted-string region (stop `"`) accepts every text. -/
theorem region_ok_string (s : List Char) :
    ∀ c ∈ s, (stringMeta c = true →
        (c = '\\' ∨ c = '"' ∨ (none : Option Char) = some c ∨
          (none : Option Char) = some c)) ∧
      (stringMeta c = false →
        (¬c = '"' ∧ ¬(none : Option Char) = some c ∧
          ¬(none : Option Char) = some c ∧ ¬c = '\\')) := by
  intro c hc
  constructor
  · intro hm
    rcases stringMeta_cases c hm with h | h
    · exact Or.inl h
    · exact Or.inr (Or.inl h)
  · intro hm
    obtain ⟨m1, m2⟩ := stringMeta_false c hm
    exact ⟨m2, fun he => Option.noConfusion he, fun he => Option.noConfusion he, m1⟩

/-! ## Assembling a successful parse -/

/-- The one-stop scanner in terms of the three-stop scanner. -/
theorem parse_to_char_ok (e : Char) (l res rem : List Char) (stop : Char)
    (h : parse_to_char3 e none none l = .ok (res, stop, rem)) :
    parse_to_char e l = .ok (res, rem) := by
  unfold parse_to_char
  rw [h]

/-- Forward composition of `parse`: successful stages assemble into a
successful parse. -/
theorem parse_ok_intro (b stripped meas : List Char) (stopc : Char)
    (rest : List Char) (tags : List (List Char × List Char)) (rest2 : List Char)
    (fields : List (List Char × OwnedValue)) (rest3 : List Char) (ts : Nat)
    (h1 : stripTrailingNewlines b = some stripped)
    (h2 : parse_to_char2 ',' ' ' stripped = .ok (meas, stopc, rest))
    (h3 : (if stopc = ',' then parse_tags rest else .ok ([], rest)) = .ok (tags, rest2))
    (h4 : parse_fields rest2 = .ok (fields, rest3))
    (h5 : rustParseU64 rest3 = some ts) :
    parse b = .ok ⟨meas, tags, fields, ts⟩ := by
  unfold parse
  rw [h1]
  dsimp only
  rw [h2]
  dsimp only
  rw [h3]
  dsimp only
  rw [h4]
  dsimp only
  rw [h5]

/-- An unquoted boolean field value round trips through `parse_value`
when followed by a space. -/
theorem parse_value_bool (b : Bool) (r : List Char) :
    parse_value (boolToChars b ++ ' ' :: r) = .ok (.Bool b, ' ', r) := by
  cases b
  · have hfb : float_or_bool ['f', 'a', 'l', 's', 'e'] = .ok (.Bool false) := by decide
    simp [boolToChars, parse_value, parse_value_go_push, parse_value_go_space, hfb,
      Except.map]
  · have hfb : float_or_bool ['t', 'r', 'u', 'e'] = .ok (.Bool true) := by decide
    simp [boolToChars, parse_value, parse_value_go_push, parse_value_go_space, hfb,
      Except.map]

/-- A quoted string field value round trips through `parse_value` when
followed by a space: the quote dispatches to the string path, the scanner
recovers the escaped body, and the following space terminates. -/
theorem parse_value_string (s r : List Char) :
    parse_value (process_string s ++ ' ' :: r) = .ok (.String s, ' ', r) := by
  have hsc := scan_escaped stringMeta '"' none none '"' s (' ' :: r) (Or.inl rfl)
    (by decide) (by decide) (by decide) (region_ok_string s)
  rw [show process_string s ++ ' ' :: r =
    '"' :: (escapeChars stringMeta s ++ '"' :: ' ' :: r) from by simp [process_string]]
  rw [show parse_value ('"' :: (escapeChars stringMeta s ++ '"' :: ' ' :: r)) =
    parse_string (escapeChars stringMeta s ++ '"' :: ' ' :: r) from by simp [parse_value]]
  unfold parse_string parse_to_char
  rw [hsc]
  rfl

/-- Parsing the fields region produced by encoding one field whose
rendered value parses back: the escaped key scans to the `=`, the value
parses, and the space exits to the timestamp. -/
theorem parse_fields_single (k : List Char) (v : OwnedValue) (val tail : List Char)
    (hkOk : ∀ c ∈ k, ¬c = ',' ∧ ¬c = ' ' ∧ ¬c = '"')
    (hpv : parse_value (val ++ ' ' :: tail) = .ok (v, ' ', tail)) :
    parse_fields (escape k ++ '=' :: (val ++ ' ' :: tail)) = .ok ([(k, v)], tail) := by
  have hscan := scan_escaped influxMeta '=' none none '=' k (val ++ ' ' :: tail)
    (Or.inl rfl) (by decide) (by decide) (by decide) (region_ok_fieldkey k hkOk)
  unfold escape
  unfold parse_fields
  unfold parse_fields_go
  rw [parse_to_char_ok '=' _ _ _ '=' hscan]
  dsimp only
  rw [hpv]
  dsimp only
  rw [if_neg (by decide : ¬(' ' = ',')), if_pos rfl]
  rfl

/-- A tag entry always contains at least its `=`. -/
theorem tagOp_ne_nil (p : List Char × List Char) : tagOp p ≠ [] := by
  unfold tagOp
  intro h
  rcases List.append_eq_nil.mp h with ⟨-, h2⟩
  cases h2

/-- The joined tag text of a non-empty tag list is non-empty. -/
theorem joinSep_tagOp_ne_nil (ts : List (List Char × List Char)) (h : ts ≠ []) :
    joinSep ',' (ts.map tagOp) ≠ [] := by
  cases ts with
  | nil => exact absurd rfl h
  | cons t ts2 =>
    cases ts2 with
    | nil => simpa [joinSep] using tagOp_ne_nil t
    | cons t2 ts3 =>
      simp only [List.map_cons, joinSep]
      intro hap
      rcases List.append_eq_nil.mp hap with ⟨-, h2⟩
      cases h2

/-- The joined tag text is at least as long as the tag list. -/
theorem joinSep_tagOp_length (ts : List (List Char × List Char)) :
    ts.length ≤ (joinSep ',' (ts.map tagOp)).length := by
  induction ts with
  | nil => simp [joinSep]
  | cons t ts2 ih =>
    cases ts2 with
    | nil =>
      simp only [List.map_cons, List.map_nil, joinSep, List.length_cons, List.length_nil]
      have : tagOp t ≠ [] := tagOp_ne_nil t
      cases hop : tagOp t with
      | nil => exact absurd hop this
      | cons c l => simp
    | cons t2 ts3 =>
      simp only [List.map_cons, List.length_cons] at ih ⊢
      rw [show joinSep ',' (tagOp t :: tagOp t2 :: ts3.map tagOp) =
        tagOp t ++ ',' :: joinSep ',' (tagOp t2 :: ts3.map tagOp) from by simp [joinSep]]
      simp only [List.length_append, List.length_cons]
      omega

/-- Round trip of the tag region: parsing the comma-joined escaped tags
followed by a space appends exactly those tags to the accumulator. -/
theorem parse_tags_go_roundtrip :
    ∀ (ts : List (List Char × List Char)) (fuel : Nat)
      (res : List (List Char × List Char)) (rest : List Char),
      ts ≠ [] → ts.length + 1 ≤ fuel →
      (∀ p ∈ ts, (∀ c ∈ p.1, ¬c = '"') ∧ (∀ c ∈ p.2, ¬c = '"')) →
      (∀ p ∈ ts, lookupKV p.1 res = none) →
      (ts.map Prod.fst).Nodup →
      parse_tags_go fuel res (joinSep ',' (ts.map tagOp) ++ ' ' :: rest) =
        .ok (res ++ ts, rest) := by
  intro ts
  induction ts with
  | nil => intro _ _ _ h _ _ _ _; exact absurd rfl h
  | cons t ts2 ih =>
    intro fuel res rest _ hfuel hq hlk hnd
    obtain ⟨fuel, rfl⟩ : ∃ f, fuel = f + 1 := ⟨fuel - 1, by omega⟩
    cases ts2 with
    | nil =>
      have hkey := scan_escaped influxMeta '=' (some ' ') (some ',') '=' t.1
        (escapeChars influxMeta t.2 ++ ' ' :: rest) (Or.inl rfl)
        (by decide) (by decide) (by decide)
        (region_ok_tag t.1 (hq t (List.mem_cons_self t [])).1)
      have hval := scan_escaped influxMeta '=' (some ' ') (some ',') ' ' t.2 rest
        (Or.inr (Or.inl rfl)) (by decide) (by decide) (by decide)
        (region_ok_tag t.2 (hq t (List.mem_cons_self t [])).2)
      unfold parse_tags_go
      rw [show joinSep ',' ([t].map tagOp) ++ ' ' :: rest =
        escapeChars influxMeta t.1 ++
          '=' :: (escapeChars influxMeta t.2 ++ ' ' :: rest) from by
          simp [joinSep, tagOp, escape, List.append_assoc]]
      rw [hkey]
      dsimp only
      rw [if_neg (by decide : ¬('=' ≠ '='))]
      rw [hval]
      dsimp only
      rw [if_neg (by decide : ¬(' ' = '='))]
      rw [insertKV_append res t.1 t.2 (hlk t (List.mem_cons_self t []))]
      rw [if_pos rfl]
    | cons t2 ts3 =>
      have hkey := scan_escaped influxMeta '=' (some ' ') (some ',') '=' t.1
        (escapeChars influxMeta t.2 ++
          ',' :: (joinSep ',' ((t2 :: ts3).map tagOp) ++ ' ' :: rest)) (Or.inl rfl)
        (by decide) (by decide) (by decide)
        (region_ok_tag t.1 (hq t (List.mem_cons_self t (t2 :: ts3))).1)
      have hval := scan_escaped influxMeta '=' (some ' ') (some ',') ',' t.2
        (joinSep ',' ((t2 :: ts3).map tagOp) ++ ' ' :: rest)
        (Or.inr (Or.inr rfl)) (by decide) (by decide) (by decide)
        (region_ok_tag t.2 (hq t (List.mem_cons_self t (t2 :: ts3))).2)
      have hhead : t.1 ∉ (t2 :: ts3).map Prod.fst := by
        rw [List.map_cons] at hnd
        exact (List.nodup_cons.mp hnd).1
      have hih := ih fuel (res ++ [t]) rest (by simp) (by
          simp only [List.length_cons] at hfuel ⊢
          omega)
        (fun p hp => hq p (List.mem_cons_of_mem t hp))
        (fun p hp => lookupKV_append_single res p.1 t.1 t.2
          (hlk p (List.mem_cons_of_mem t hp))
          (fun he => hhead (he ▸ List.mem_map_of_mem Prod.fst hp)))
        (by
          rw [List.map_cons] at hnd
          exact (List.nodup_cons.mp hnd).2)
      unfold parse_tags_go
      rw [show joinSep ',' ((t :: t2 :: ts3).map tagOp) ++ ' ' :: rest =
        escapeChars influxMeta t.1 ++
          '=' :: (escapeChars influxMeta t.2 ++
            ',' :: (joinSep ',' ((t2 :: ts3).map tagOp) ++ ' ' :: rest)) from by
          simp [joinSep, tagOp, escape, List.append_assoc]]
      rw [hkey]
      dsimp only
      rw [if_neg (by decide : ¬('=' ≠ '='))]
      rw [hval]
      dsimp only
      rw [if_neg (by decide : ¬(',' = '='))]
      rw [insertKV_append res t.1 t.2 (hlk t (List.mem_cons_self t (t2 :: ts3)))]
      rw [if_neg (by decide : ¬(',' = ' ')), hih]
      simp

/-- The encoded form of a data point with exactly one field and no
tags. -/
theorem try_to_bytes_single_notags (meas : List Char) (k : List Char)
    (v : OwnedValue) (ts : Nat) (val : List Char) (hv : render_field v = .ok val) :
    InfluxDatapoint.try_to_bytes ⟨meas, [], [(k, v)], ts⟩ =
      .ok (escape meas ++ ' ' :: (escape k ++ '=' :: (val ++ ' ' :: natToChars ts))) := by
  unfold InfluxDatapoint.try_to_bytes
  dsimp only
  rw [show collect_fields [(k, v)] = .ok [escape k ++ '=' :: val] from by
    unfold collect_fields
    rw [hv]
    rfl]
  simp [joinSep, List.append_assoc]

/-- The encoded form of a data point with exactly one field and a
non-empty tag list. -/
theorem try_to_bytes_single_tags (meas : List Char)
    (tags : List (List Char × List Char)) (k : List Char)
    (v : OwnedValue) (ts : Nat) (val : List Char) (hv : render_field v = .ok val)
    (htne : tags ≠ []) :
    InfluxDatapoint.try_to_bytes ⟨meas, tags, [(k, v)], ts⟩ =
      .ok (escape meas ++ ',' :: (joinSep ',' (tags.map tagOp) ++
        ' ' :: (escape k ++ '=' :: (val ++ ' ' :: natToChars ts)))) := by
  have hne := joinSep_tagOp_ne_nil tags htne
  have hemp : (joinSep ',' (tags.map tagOp)).isEmpty = false := by
    cases hj : joinSep ',' (tags.map tagOp) with
    | nil => exact absurd hj hne
    | cons c l => rfl
  unfold InfluxDatapoint.try_to_bytes
  dsimp only
  rw [show collect_fields [(k, v)] = .ok [escape k ++ '=' :: val] from by
    unfold collect_fields
    rw [hv]
    rfl]
  rw [hemp]
  simp [joinSep, List.append_assoc]

/-! ## The test table of the source file

These evaluations mirror the unit tests of `src/codec/influx.rs`
(`parse_simple`, `parse_int_value`, `parse_str_value`, `parse_true_value`,
`parse_escape1`, `parse_escape2`, `parse_escape6`, `encode_mixed_bag`,
and the negative tag-without-value case), checking that the embedding
agrees with the source on its own examples. -/

theorem test_parse_simple :
    parse "weather,location=us-midwest temperature=82 1465839830100400200".data =
      .ok ⟨"weather".data, [("location".data, "us-midwest".data)],
        [("temperature".data, .F64 (.finite 82))], 1465839830100400200⟩ := by decide

theorem test_parse_int_value :
    parse "weather temperature=82i 1465839830100400200".data =
      .ok ⟨"weather".data, [], [("temperature".data, .I64 82)],
        1465839830100400200⟩ := by decide

theorem test_parse_str_value :
    parse "weather,location=us-midwest temperature=\"too warm\" 1465839830100400200".data =
      .ok ⟨"weather".data, [("location".data, "us-midwest".data)],
        [("temperature".data, .String "too warm".data)], 1465839830100400200⟩ := by decide

theorem test_parse_true_value :
    parse "weather,location=us-midwest too_hot=true 1465839830100400200".data =
      .ok ⟨"weather".data, [("location".data, "us-midwest".data)],
        [("too_hot".data, .Bool true)], 1465839830100400200⟩ := by decide

theorem test_parse_escape1 :
    parse "weather,location=us\\,midwest temperature=82 1465839830100400200".data =
      .ok ⟨"weather".data, [("location".data, "us,midwest".data)],
        [("temperature".data, .F64 (.finite 82))], 1465839830100400200⟩ := by decide

theorem test_parse_escape2 :
    parse "weather,location=us-midwest temp\\=rature=82 1465839830100400200".data =
      .ok ⟨"weather".data, [("location".data, "us-midwest".data)],
        [("temp=rature".data, .F64 (.finite 82))], 1465839830100400200⟩ := by decide

theorem test_parse_escape6 :
    parse "weather,location=us-midwest temperature=\"too\\\"hot\\\"\" 1465839830100400200".data =
      .ok ⟨"weather".data, [("location".data, "us-midwest".data)],
        [("temperature".data, .String "too\"hot\"".data)], 1465839830100400200⟩ := by decide

theorem test_encode_mixed_bag :
    InfluxDatapoint.try_to_bytes
      ⟨"wea,\\ ther".data, [],
        [("temp=erature".data, .F64 (.finite 82)),
          ("too\\ \\\\\\\"hot\"".data, .Bool true)], 1465839830100400200⟩ =
      .ok "wea\\,\\\\\\ ther temp\\=erature=82 too\\\\\\ \\\\\\\\\\\\\\\"hot\\\"=true 1465839830100400200".data := by
  decide

theorem test_parse_tag_without_value :
    parse "weather,location temperature=82 1".data = .error .tagWithoutValue := by decide

/-! ## Claims -/

/-- C2: the claim states that an `Integer(n)` field value is rendered as
the decimal representation of `n` followed by the suffix `i`; the code
(`OwnedValue::I64(num) => Ok(num.to_string())`) emits the bare decimal
with no suffix, as this evaluation shows: the encoded line is `m f=82 0`
and contains no `i` at all. -/
theorem C2_integer_rendered_without_suffix :
    InfluxDatapoint.try_to_bytes ⟨['m'], [], [(['f'], .I64 82)], 0⟩ =
      .ok "m f=82 0".data ∧ 'i' ∉ "m f=82 0".data := by decide

/-- C4: a field value token `82i` (followed by space or comma) decodes to
`Integer(82)`, the token `82` decodes to `Float(82.0)`, both at the level
of `parse_value` (for every remaining input) and of full lines, and the
two results are distinct variants. -/
theorem C4_integer_suffix_vs_float :
    (∀ rest, parse_value ('8' :: '2' :: 'i' :: ' ' :: rest) = .ok (.I64 82, ' ', rest)) ∧
    (∀ rest, parse_value ('8' :: '2' :: 'i' :: ',' :: rest) = .ok (.I64 82, ',', rest)) ∧
    (∀ rest, parse_value ('8' :: '2' :: ' ' :: rest) = .ok (.F64 (.finite 82), ' ', rest)) ∧
    (∀ rest, parse_value ('8' :: '2' :: ',' :: rest) = .ok (.F64 (.finite 82), ',', rest)) ∧
    parse "weather temperature=82i 1465839830100400200".data =
      .ok ⟨"weather".data, [], [("temperature".data, .I64 82)], 1465839830100400200⟩ ∧
    parse "weather temperature=82 1465839830100400200".data =
      .ok ⟨"weather".data, [], [("temperature".data, .F64 (.finite 82))], 1465839830100400200⟩ ∧
    OwnedValue.I64 82 ≠ OwnedValue.F64 (.finite 82) := by
  have h82 : float_or_bool ['8', '2'] = .ok (.F64 (.finite 82)) := by decide
  refine ⟨fun _ => rfl, fun _ => rfl, fun rest => ?_, fun rest => ?_, by decide, by decide, by decide⟩
  · simp [parse_value, parse_value_go_push, parse_value_go_space, h82, Except.map]
  · simp [parse_value, parse_value_go_push, parse_value_go_comma, h82, Except.map]

/-- C5 counterexample: the claim states that during unquoted-value
accumulation every backslash, regardless of position, consumes the next
character literally into the buffer.  A backslash in the first position of
the value does not: `parse_value` pushes it verbatim, so the token
backslash-`t` is buffered as backslash-`t` and fails the float parse,
whereas the accumulation the claim describes (`spec_parse_value`) would
buffer `t` and produce `Bool(true)`.  A backslash in any later position
does escape, as the third conjunct shows (`1` backslash `2` buffers as
`12`). -/
theorem C5_counterexample :
    parse_value ['\\', 't', ' '] = .error .badFloat ∧
    spec_parse_value ['\\', 't', ' '] = .ok (.Bool true, ' ', []) ∧
    parse_value ['1', '\\', '2', ' '] = .ok (.F64 (.finite 12), ' ', []) := by decide

/-- C5 amended: inside the accumulation loop (that is, at every position
after the first character of the value) a backslash consumes the
immediately following character literally into the buffer with the
backslash dropped; the first character of an unquoted value, however, is
consumed verbatim even when it is a backslash. -/
theorem C5_amended_backslash_in_loop :
    (∀ res c rest, parse_value_go res ('\\' :: c :: rest) = parse_value_go (res ++ [c]) rest) ∧
    (∀ rest, parse_value ('\\' :: rest) = parse_value_go ['\\'] rest) :=
  ⟨fun _ _ _ => rfl, fun _ => rfl⟩

/-- C6: when the scanner meets a backslash followed by a character that is
neither a backslash nor one of the active stop characters, both the
backslash and that character are emitted verbatim and scanning
continues. -/
theorem C6_unrecognised_escape_passthrough (e1 : Char) (e2 e3 : Option Char)
    (c : Char) (rest : List Char)
    (hb1 : ¬('\\' = e1)) (hb2 : ¬(e2 = some '\\')) (hb3 : ¬(e3 = some '\\'))
    (hc0 : ¬(c = '\\')) (hc1 : ¬(c = e1)) (hc2 : ¬(e2 = some c)) (hc3 : ¬(e3 = some c)) :
    parse_to_char3 e1 e2 e3 ('\\' :: c :: rest) =
      (parse_to_char3 e1 e2 e3 rest).map (fun t => ('\\' :: c :: t.1, t.2)) := by
  cases hres : parse_to_char3 e1 e2 e3 rest with
  | ok t =>
    obtain ⟨r, st, rm⟩ := t
    simp [parse_to_char3, hb1, hb2, hb3, hc0, hc1, hc2, hc3, hres, Except.map]
  | error e =>
    simp [parse_to_char3, hb1, hb2, hb3, hc0, hc1, hc2, hc3, hres, Except.map]

/-- C6 witness: scanning a measurement-like region (stops comma and
space) over backslash-`x` yields the two characters verbatim. -/
theorem C6_witness :
    parse_to_char3 ',' (some ' ') none ['\\', 'x', ','] = .ok (['\\', 'x'], ',', []) := by
  have h := C6_unrecognised_escape_passthrough ',' (some ' ') none 'x' [',']
    (by decide) (by decide) (by decide) (by decide) (by decide) (by decide) (by decide)
  simpa using h

/-- C8: an input consisting only of newline characters (the empty input
included) is stripped to nothing and rejected with the `Empty.` error. -/
theorem C8_newline_only_input_is_empty_error (l : List Char) (h : ∀ c ∈ l, c = '\n') :
    parse l = .error .empty := by
  have hs : stripTrailingNewlines l = none := by
    unfold stripTrailingNewlines
    rw [popNewlinesRev_all_newlines l.reverse (fun c hc => h c (List.mem_reverse.mp hc))]
    rfl
  unfold parse
  rw [hs]

/-- C8 witness: two newlines (and, by the same theorem at `[]`, the empty
input) decode to the `Empty.` error. -/
theorem C8_witness : parse ['\n', '\n'] = .error .empty :=
  C8_newline_only_input_is_empty_error ['\n', '\n'] (by decide)

/-- C9: encoding a data point one of whose field values is not one of the
four scalar shapes fails with the `Arrays are not supported for field
values` error and produces no bytes. -/
theorem C9_nonscalar_field_encode_fails (d : InfluxDatapoint)
    (h : ∃ p ∈ d.fields, isNonScalar p.2 = true) :
    d.try_to_bytes = .error .unsupportedFieldValue := by
  unfold InfluxDatapoint.try_to_bytes
  rw [collect_fields_nonscalar d.fields h]

/-- C9 witness: a data point with an array-valued field is rejected by the
encoder. -/
theorem C9_witness :
    InfluxDatapoint.try_to_bytes ⟨['m'], [], [(['f'], OwnedValue.Array)], 0⟩ =
      .error .unsupportedFieldValue :=
  C9_nonscalar_field_encode_fails ⟨['m'], [], [(['f'], OwnedValue.Array)], 0⟩
    ⟨(['f'], OwnedValue.Array), by decide, by decide⟩

/-- Inversion of a successful `parse`: the newline stripping, the
measurement scan, the optional tag parse, the field parse and the
timestamp parse all succeeded in sequence. -/
theorem parse_ok_inversion (b : List Char) (dp : InfluxDatapoint) (h : parse b = .ok dp) :
    ∃ stripped meas stopc rest tags rest2 fields rest3,
      stripTrailingNewlines b = some stripped ∧
      parse_to_char2 ',' ' ' stripped = .ok (meas, stopc, rest) ∧
      (if stopc = ',' then parse_tags rest else .ok ([], rest)) = .ok (tags, rest2) ∧
      parse_fields rest2 = .ok (fields, rest3) ∧
      rustParseU64 rest3 = some dp.timestamp ∧
      dp = ⟨meas, tags, fields, dp.timestamp⟩ := by
  unfold parse at h
  split at h
  · cases h
  · split at h
    · cases h
    · split at h
      · cases h
      · split at h
        · cases h
        · split at h
          · cases h
          · cases h
            rename_i x4 stripped hstrip x3 meas stopc rest hscan x2 tags rest2 htags
              x1 fields rest3 hfields x0 ts hts
            exact ⟨stripped, meas, stopc, rest, tags, rest2, fields, rest3,
              hstrip, hscan, htags, hfields, hts, rfl⟩

/-- C1 counterexample: the claim states that `decode(encode(x)) == x` (up
to map ordering) for every data point with non-empty measurement and keys
and scalar field values.  It fails already on scalar inputs: an
`Integer(82)` field is encoded without the `i` suffix and decodes back as
`Float(82.0)`, and with two fields the encoder joins them with a space, so
decoding stops after the first field and fails on the timestamp. -/
theorem C1_counterexample :
    InfluxDatapoint.try_to_bytes ⟨['m'], [], [(['f'], .I64 82)], 0⟩ =
      .ok "m f=82 0".data ∧
    parse "m f=82 0".data = .ok ⟨['m'], [], [(['f'], .F64 (.finite 82))], 0⟩ ∧
    dpEquivB ⟨['m'], [], [(['f'], .F64 (.finite 82))], 0⟩
      ⟨['m'], [], [(['f'], .I64 82)], 0⟩ = false ∧
    InfluxDatapoint.try_to_bytes
      ⟨['m'], [], [(['f'], .Bool true), (['g'], .Bool false)], 3⟩ =
      .ok "m f=true g=false 3".data ∧
    parse "m f=true g=false 3".data = .error .badTimestamp := by decide

/-- C1 amended: round trip holds for every data point with exactly one
field whose value is a boolean or a string, whose measurement contains
neither `=` nor `"`, whose tag keys and values contain no `"`, whose tag
keys are distinct, and whose field key contains no comma, space or `"`:
encoding succeeds and decoding the encoded bytes succeeds with a data
point equal to the original up to map ordering. -/
theorem C1_amended_roundtrip (meas k : List Char)
    (tags : List (List Char × List Char)) (v : OwnedValue) (ts : Nat)
    (hmeas : meas ≠ []) (hmeasOk : ∀ c ∈ meas, ¬c = '=' ∧ ¬c = '"')
    (htagKeys : ∀ p ∈ tags, p.1 ≠ [])
    (htagsOk : ∀ p ∈ tags, (∀ c ∈ p.1, ¬c = '"') ∧ (∀ c ∈ p.2, ¬c = '"'))
    (hnodup : (tags.map Prod.fst).Nodup)
    (hk : k ≠ []) (hkOk : ∀ c ∈ k, ¬c = ',' ∧ ¬c = ' ' ∧ ¬c = '"')
    (hv : (∃ b, v = .Bool b) ∨ (∃ s, v = .String s))
    (hts : ts < 18446744073709551616) :
    ∃ out, InfluxDatapoint.try_to_bytes ⟨meas, tags, [(k, v)], ts⟩ = .ok out ∧
      ∃ y, parse out = .ok y ∧ dpEquivB y ⟨meas, tags, [(k, v)], ts⟩ = true := by
  have hvv : ∃ val, render_field v = .ok val ∧
      ∀ r, parse_value (val ++ ' ' :: r) = .ok (v, ' ', r) := by
    rcases hv with ⟨b, rfl⟩ | ⟨s, rfl⟩
    · exact ⟨boolToChars b, rfl, parse_value_bool b⟩
    · exact ⟨process_string s, rfl, parse_value_string s⟩
  obtain ⟨val, hval, hpv⟩ := hvv
  have hfields := parse_fields_single k v val (natToChars ts) hkOk (hpv (natToChars ts))
  have hts64 := rustParseU64_natToChars ts (by omega)
  cases tags with
  | nil =>
    refine ⟨_, try_to_bytes_single_notags meas k v ts val hval, ?_⟩
    have hsplit : escape meas ++ ' ' :: (escape k ++ '=' :: (val ++ ' ' :: natToChars ts)) =
        (escape meas ++ ' ' :: (escape k ++ '=' :: (val ++ [' ']))) ++ natToChars ts := by
      simp [List.append_assoc]
    have h1 : stripTrailingNewlines
        (escape meas ++ ' ' :: (escape k ++ '=' :: (val ++ ' ' :: natToChars ts))) =
        some (escape meas ++ ' ' :: (escape k ++ '=' :: (val ++ ' ' :: natToChars ts))) := by
      rw [hsplit, stripTrailingNewlines_ends_digits, ← hsplit]
    have h2 : parse_to_char2 ',' ' '
        (escape meas ++ ' ' :: (escape k ++ '=' :: (val ++ ' ' :: natToChars ts))) =
        .ok (meas, ' ', escape k ++ '=' :: (val ++ ' ' :: natToChars ts)) :=
      scan_escaped influxMeta ',' (some ' ') none ' ' meas
        (escape k ++ '=' :: (val ++ ' ' :: natToChars ts)) (Or.inr (Or.inl rfl))
        (by decide) (by decide) (by decide) (region_ok_meas meas hmeasOk)
    have h3 : (if (' ' : Char) = ',' then
        parse_tags (escape k ++ '=' :: (val ++ ' ' :: natToChars ts))
        else .ok ([], escape k ++ '=' :: (val ++ ' ' :: natToChars ts))) =
        .ok (([] : List (List Char × List Char)),
          escape k ++ '=' :: (val ++ ' ' :: natToChars ts)) := by
      rw [if_neg (by decide : ¬((' ' : Char) = ','))]
    refine ⟨⟨meas, [], [(k, v)], ts⟩,
      parse_ok_intro _ _ meas ' ' _ [] _ [(k, v)] (natToChars ts) ts h1 h2 h3 hfields hts64,
      dpEquivB_refl _ (by simp) (by simp)⟩
  | cons t ts2 =>
    refine ⟨_, try_to_bytes_single_tags meas (t :: ts2) k v ts val hval (by simp), ?_⟩
    have hsplit : escape meas ++ ',' :: (joinSep ',' ((t :: ts2).map tagOp) ++
        ' ' :: (escape k ++ '=' :: (val ++ ' ' :: natToChars ts))) =
        (escape meas ++ ',' :: (joinSep ',' ((t :: ts2).map tagOp) ++
          ' ' :: (escape k ++ '=' :: (val ++ [' '])))) ++ natToChars ts := by
      simp [List.append_assoc]
    have h1 : stripTrailingNewlines (escape meas ++ ',' ::
        (joinSep ',' ((t :: ts2).map tagOp) ++
          ' ' :: (escape k ++ '=' :: (val ++ ' ' :: natToChars ts)))) =
        some (escape meas ++ ',' :: (joinSep ',' ((t :: ts2).map tagOp) ++
          ' ' :: (escape k ++ '=' :: (val ++ ' ' :: natToChars ts)))) := by
      rw [hsplit, stripTrailingNewlines_ends_digits, ← hsplit]
    have h2 : parse_to_char2 ',' ' ' (escape meas ++ ',' ::
        (joinSep ',' ((t :: ts2).map tagOp) ++
          ' ' :: (escape k ++ '=' :: (val ++ ' ' :: natToChars ts)))) =
        .ok (meas, ',', joinSep ',' ((t :: ts2).map tagOp) ++
          ' ' :: (escape k ++ '=' :: (val ++ ' ' :: natToChars ts))) :=
      scan_escaped influxMeta ',' (some ' ') none ',' meas
        (joinSep ',' ((t :: ts2).map tagOp) ++
          ' ' :: (escape k ++ '=' :: (val ++ ' ' :: natToChars ts))) (Or.inl rfl)
        (by decide) (by decide) (by decide) (region_ok_meas meas hmeasOk)
    have htags : parse_tags (joinSep ',' ((t :: ts2).map tagOp) ++
        ' ' :: (escape k ++ '=' :: (val ++ ' ' :: natToChars ts))) =
        .ok (t :: ts2, escape k ++ '=' :: (val ++ ' ' :: natToChars ts)) := by
      unfold parse_tags
      rw [parse_tags_go_roundtrip (t :: ts2) _ [] _ (by simp)
        (by
          have hlen := joinSep_tagOp_length (t :: ts2)
          simp only [List.length_cons] at hlen ⊢
          simp only [List.length_append, List.length_cons]
          omega)
        htagsOk (fun p _ => rfl) hnodup]
      rw [List.nil_append]
    have h3 : (if (',' : Char) = ',' then
        parse_tags (joinSep ',' ((t :: ts2).map tagOp) ++
          ' ' :: (escape k ++ '=' :: (val ++ ' ' :: natToChars ts)))
        else .ok ([], joinSep ',' ((t :: ts2).map tagOp) ++
          ' ' :: (escape k ++ '=' :: (val ++ ' ' :: natToChars ts)))) =
        .ok (t :: ts2, escape k ++ '=' :: (val ++ ' ' :: natToChars ts)) := by
      rw [if_pos rfl, htags]
    refine ⟨⟨meas, t :: ts2, [(k, v)], ts⟩,
      parse_ok_intro _ _ meas ',' _ (t :: ts2) _ [(k, v)] (natToChars ts) ts
        h1 h2 h3 hfields hts64,
      dpEquivB_refl _ hnodup (by simp)⟩

/-- C1 witness: the data point
`{weather | {location: us-midwest} | {temperature: String("too warm")} |
1465839830100400200}` encodes and decodes back to itself up to map
ordering. -/
theorem C1_witness :
    ∃ out, InfluxDatapoint.try_to_bytes
      ⟨"weather".data, [("location".data, "us-midwest".data)],
        [("temperature".data, .String "too warm".data)], 1465839830100400200⟩ = .ok out ∧
      ∃ y, parse out = .ok y ∧
        dpEquivB y ⟨"weather".data, [("location".data, "us-midwest".data)],
          [("temperature".data, .String "too warm".data)], 1465839830100400200⟩ = true :=
  C1_amended_roundtrip "weather".data "temperature".data
    [("location".data, "us-midwest".data)] (.String "too warm".data) 1465839830100400200
    (by decide) (by decide) (by decide) (by decide) (by decide) (by decide) (by decide)
    (Or.inr ⟨"too warm".data, rfl⟩) (by decide)

/-- C3 counterexample: the claim states that every successfully decoded
line has a non-empty measurement and non-empty tag and field keys.  All
three parts fail: a line starting with a space decodes with an empty
measurement, a tag key may be empty, and a field key may be empty. -/
theorem C3_counterexample :
    parse " f=1 2".data = .ok ⟨[], [], [("f".data, .F64 (.finite 1))], 2⟩ ∧
    parse "m,=v f=1 2".data = .ok ⟨['m'], [([], ['v'])], [(['f'], .F64 (.finite 1))], 2⟩ ∧
    parse "m =1 2".data = .ok ⟨['m'], [], [([], .F64 (.finite 1))], 2⟩ := by decide

/-- C3 amended: the parser performs no emptiness validation; what does
hold is that the decoded measurement is non-empty whenever the
newline-stripped input does not begin with one of the measurement stop
characters (comma or space); tag keys and field keys may be empty. -/
theorem C3_amended_measurement_nonempty (b : List Char) (dp : InfluxDatapoint)
    (c : Char) (rest : List Char)
    (hp : parse b = .ok dp) (hs : stripTrailingNewlines b = some (c :: rest))
    (hc1 : ¬c = ',') (hc2 : ¬c = ' ') : dp.measurement ≠ [] := by
  have h2 : ¬((some ' ' : Option Char) = some c) := by
    intro h
    exact hc2 (Option.some.inj h).symm
  have h3 : ¬((none : Option Char) = some c) := by
    intro h
    cases h
  obtain ⟨stripped, meas, stopc, rest', tags, rest2, fields, rest3,
    hstrip, hscan, -, -, -, hdp⟩ := parse_ok_inversion b dp hp
  rw [hstrip] at hs
  obtain rfl : stripped = c :: rest := Option.some.inj hs
  simp only [parse_to_char2] at hscan
  rw [hdp]
  simpa using
    parse_to_char3_head_not_stop_ne_nil ',' (some ' ') none c rest meas stopc rest'
      hscan hc1 h2 h3

/-- C3 witness: the line `m f=1 2` decodes successfully, its stripped form
starts with `m` (neither comma nor space), and the theorem yields that the
decoded measurement is non-empty. -/
theorem C3_witness :
    (⟨['m'], [], [(['f'], OwnedValue.F64 (.finite 1))], (2 : Nat)⟩ : InfluxDatapoint).measurement ≠ [] :=
  C3_amended_measurement_nonempty "m f=1 2".data _ 'm' " f=1 2".data
    (by decide) (by decide) (by decide) (by decide)

/-- C7: whenever decoding succeeds, the fields map of the result is
non-empty (the field loop only returns after inserting the entry whose
value scan was terminated by a space). -/
theorem C7_decoded_fields_nonempty (b : List Char) (dp : InfluxDatapoint)
    (h : parse b = .ok dp) : dp.fields ≠ [] := by
  obtain ⟨stripped, meas, stopc, rest', tags, rest2, fields, rest3,
    -, -, -, hfields, -, hdp⟩ := parse_ok_inversion b dp h
  simp only [parse_fields] at hfields
  rw [hdp]
  simpa using parse_fields_go_ok_ne_nil _ _ _ _ _ hfields

/-- C7 witness: a concrete successful decode whose fields map is the
singleton `temperature = Integer(82)`. -/
theorem C7_witness :
    (⟨"weather".data, [], [("temperature".data, OwnedValue.I64 82)],
      1465839830100400200⟩ : InfluxDatapoint).fields ≠ [] :=
  C7_decoded_fields_nonempty "weather temperature=82i 1465839830100400200".data _ (by decide)

/-- C10: a field value that is empty (the `=` immediately followed by a
comma, a space, or the end of input) is always rejected: `parse_value`
fails with the `Unexpected end of values` error on such inputs, and whole
lines exercising each of the three shapes fail the same way. -/
theorem C10_empty_field_value_rejected :
    (∀ rest, parse_value (',' :: rest) = .error .unexpectedEndOfValues) ∧
    (∀ rest, parse_value (' ' :: rest) = .error .unexpectedEndOfValues) ∧
    parse_value [] = .error .unexpectedEndOfValues ∧
    parse "m f= 1".data = .error .unexpectedEndOfValues ∧
    parse "m f=,g=1 2".data = .error .unexpectedEndOfValues ∧
    parse "m f=".data = .error .unexpectedEndOfValues :=
  ⟨fun _ => rfl, fun _ => rfl, rfl, by decide, by decide, by decide⟩

end Influx
